import Mathlib

/-!
Shallow embedding of src/packages/cli/python/mlx_tts_server.py.

Conventions of the embedding:
* Python floats are idealized as exact rationals (ℚ); the spec states its
  timestamp properties up to rounding, which this embedding makes exact.
* Audio sample values are opaque numbers; they are only moved around and
  counted, never combined arithmetically, so they are modeled as ℤ.
* Python exceptions are explicit values (PyExc) and fallible code returns
  Except; str(e) is modeled by strExc.
* The external collaborators (the TTS model library, the soundfile WAV
  encoder, base64) are out of scope per the spec; they appear as
  parameters or as faithful packaging structures, as noted on each one.
-/

/-- Round-half-even of a rational to an integer, the rounding mode of
Python's built-in round(). Ties (fractional part exactly one half) go to
the even neighbour. -/
def rhe (q : ℚ) : ℤ :=
  if q - ⌊q⌋ < 1/2 then ⌊q⌋
  else if (1/2 : ℚ) < q - ⌊q⌋ then ⌊q⌋ + 1
  else if ⌊q⌋ % 2 = 0 then ⌊q⌋ else ⌊q⌋ + 1

/-- Python round(x, 3): round to three decimal places, half to even. -/
def round3 (q : ℚ) : ℚ := (rhe (1000 * q) : ℚ) / 1000

/-- Helper for pysplit: walks the character list with an accumulator of the
current in-progress word (reversed); whitespace flushes the accumulator. -/
def splitWsAux : List Char → List Char → List (List Char)
  | [], acc => if acc.isEmpty then [] else [acc.reverse]
  | c :: cs, acc =>
    if c.isWhitespace then
      if acc.isEmpty then splitWsAux cs [] else acc.reverse :: splitWsAux cs []
    else splitWsAux cs (c :: acc)

/-- Python text.split() with no argument: split on runs of whitespace,
discarding empty strings (so leading/trailing whitespace yields nothing). -/
def pysplit (s : String) : List String := (splitWsAux s.data []).map String.mk

/-- total_chars = sum(len(w) for w in words)  (line 141 of the source). -/
def totalChars (ws : List String) : ℕ := (ws.map String.length).sum

/-- One element of the timestamps list built at lines 149-155:
a dict with keys word, start_time, end_time. -/
structure WordTimestamp where
  word : String
  start_time : ℚ
  end_time : ℚ
deriving DecidableEq

/-- The loop at lines 145-156 of _estimate_word_timestamps: walks the word
list carrying the unrounded accumulator current_time (here t), emitting one
entry per word with start and end independently rounded to 3 decimals. -/
def estGo (tc : ℕ) (dur : ℚ) : List String → ℚ → List WordTimestamp
  | [], _ => []
  | w :: ws, t =>
    let wd := ((w.length : ℚ) / (tc : ℚ)) * dur
    ⟨w, round3 t, round3 (t + wd)⟩ :: estGo tc dur ws (t + wd)

/-- Lines 130-158: _estimate_word_timestamps(text, total_duration).
Splits text into words, returns [] when there are no words or no
characters, otherwise distributes total_duration proportionally to each
word's character count. -/
def _estimate_word_timestamps (text : String) (total_duration : ℚ) : List WordTimestamp :=
  let words := pysplit text
  if words = [] then []
  else
    let total_chars := totalChars words
    if total_chars = 0 then []
    else estGo total_chars total_duration words 0

/-- Python division on rationals as a fallible operation: a zero divisor
raises ZeroDivisionError. Used to state that the estimator never divides
by zero. -/
def pyDiv (a b : ℚ) : Except String ℚ :=
  if b = 0 then .error "ZeroDivisionError: division by zero" else .ok (a / b)

/-- The loop of _estimate_word_timestamps with the division at line 148
taken as fallible (pyDiv), mirroring Python evaluation exactly. -/
def estGoE (tc : ℕ) (dur : ℚ) : List String → ℚ → Except String (List WordTimestamp)
  | [], _ => .ok []
  | w :: ws, t => do
    let q ← pyDiv (w.length : ℚ) (tc : ℚ)
    let wd := q * dur
    let rest ← estGoE tc dur ws (t + wd)
    pure (⟨w, round3 t, round3 (t + wd)⟩ :: rest)

/-- _estimate_word_timestamps with the internal division fallible: the
Except-valued rendering of lines 130-158, used to show totality. -/
def estimateE (text : String) (total_duration : ℚ) : Except String (List WordTimestamp) :=
  let words := pysplit text
  if words = [] then .ok []
  else
    let total_chars := totalChars words
    if total_chars = 0 then .ok []
    else estGoE total_chars total_duration words 0

/-- A Python exception as a value: either a fastapi HTTPException carrying
a status code and a detail string, or any other exception abstracted to
its string representation. -/
inductive PyExc where
  | httpException (status : ℕ) (detail : String)
  | err (msg : String)
deriving DecidableEq

/-- Python str(e). For HTTPException this follows starlette's definition
(its method returns the status code, a colon and a space, then the
detail); for the abstract exception it is the carried message. -/
def strExc : PyExc → String
  | .httpException status detail => toString status ++ ": " ++ detail
  | .err msg => msg

/-- One item yielded by the model's generator (line 78: each segment is
an (audio_array, sample_rate) tuple, or a bare array). -/
inductive Segment where
  | tup (samples : List ℤ) (rate : ℕ)
  | bare (samples : List ℤ)
deriving DecidableEq

/-- The sample buffer of a segment (lines 79-83). -/
def segSamples : Segment → List ℤ
  | .tup s _ => s
  | .bare s => s

/-- The sample rate of a segment; a bare array defaults to 24000
(lines 84-88). -/
def segRate : Segment → ℕ
  | .tup _ r => r
  | .bare _ => 24000

/-- Lines 75-88: the generator branch. The collected list is checked for
emptiness (raising HTTPException 500 "No audio generated"); otherwise
audio_array and sample_rate are taken from element 0 of the list. -/
def collectSegments (audio_segments : List Segment) : Except PyExc (List ℤ × ℕ) :=
  match audio_segments with
  | [] => .error (.httpException 500 "No audio generated")
  | s :: _ => .ok (segSamples s, segRate s)

/-- The three shapes generate_audio's result can take per lines 73-93:
a generator of segments, an (array, rate) tuple, or a bare array. -/
inductive GenResult where
  | gen (segs : List Segment)
  | tupRes (audio : List ℤ) (rate : ℕ)
  | arr (audio : List ℤ)
deriving DecidableEq

/-- Lines 73-93: turn the result of generate_audio into
(audio_array, sample_rate); a bare array defaults the rate to 24000. -/
def collectAudio : GenResult → Except PyExc (List ℤ × ℕ)
  | .gen segs => collectSegments segs
  | .tupRes a r => .ok (a, r)
  | .arr a => .ok (a, 24000)

/-- A well-formed WAV container. The byte-level layout is produced by the
external soundfile library (out of scope per the spec); the container is
modeled as the faithful packaging of the sample buffer with its rate. -/
structure WavFile where
  samples : List ℤ
  rate : ℕ
deriving DecidableEq

/-- Sample count of a decoded WAV container. -/
def wavSampleCount (w : WavFile) : ℕ := w.samples.length

/-- Sample rate of a decoded WAV container. -/
def wavRate (w : WavFile) : ℕ := w.rate

/-- Line 97: sf.write(buf, audio_array, sample_rate, format WAV), the
external encoder contract of spec section 6, as an Except so that an
encoding failure can be injected when reasoning about error handling. -/
def sf_write (samples : List ℤ) (rate : ℕ) : Except PyExc WavFile :=
  .ok ⟨samples, rate⟩

/-- The base64 text carried in the JSON response, modeled as the faithful
transport of the container bytes (the external base64 module is a
bijection on the bytes; byte-level text is out of scope). -/
structure B64 where
  payload : WavFile
deriving DecidableEq

/-- Line 98: base64.b64encode of the container bytes. -/
def base64Encode (w : WavFile) : B64 := ⟨w⟩

/-- Decoding the base64 field of a response back to the container. -/
def base64Decode (b : B64) : WavFile := b.payload

/-- The JSON body returned at lines 119-124: audio (base64 WAV) and the
timestamps list. -/
structure Response where
  audio : B64
  timestamps : List WordTimestamp
deriving DecidableEq

/-- Lines 61-124, the body of the try block: generation, collection,
WAV encoding, base64, duration computation (line 116:
len(audio_array) / sample_rate) and timestamp estimation. The outcome of
the external generate_audio call (which may itself raise) and the encoder
are parameters. -/
def synthesis_pipeline (input : String) (genOutcome : Except PyExc GenResult)
    (sfWrite : List ℤ → ℕ → Except PyExc WavFile) : Except PyExc Response :=
  match genOutcome with
  | .error e => .error e
  | .ok result =>
    match collectAudio result with
    | .error e => .error e
    | .ok ar =>
      match sfWrite ar.1 ar.2 with
      | .error e => .error e
      | .ok wav =>
        .ok { audio := base64Encode wav,
              timestamps := _estimate_word_timestamps input ((ar.1.length : ℚ) / (ar.2 : ℚ)) }

/-- Lines 58-127: the POST /dev/captioned_speech handler. The try/except
at lines 60 and 126-127 funnels every exception e of the pipeline into
HTTPException(status_code 500, detail str(e)), modeled as the error
component (500, strExc e). -/
def captioned_speech (input : String) (genOutcome : Except PyExc GenResult)
    (sfWrite : List ℤ → ℕ → Except PyExc WavFile) : Except (ℕ × String) Response :=
  match synthesis_pipeline input genOutcome sfWrite with
  | .ok r => .ok r
  | .error e => .error (500, strExc e)

/-- The module-level mutable state of the server (lines 24-25): the cached
pipeline handle and a counter of how many times the external load_model
operation has run. Handles are modeled by allocation ids so that identity
equality is id equality; load_model allocates a fresh id each time it is
invoked. -/
structure ServerState where
  cachedPipeline : Option ℕ
  loadCount : ℕ
deriving DecidableEq

/-- Line 34: the external load_model call; allocates a fresh handle and
counts the invocation. -/
def load_model (s : ServerState) : ℕ × ServerState :=
  (s.loadCount, { cachedPipeline := s.cachedPipeline, loadCount := s.loadCount + 1 })

/-- Lines 28-36: get_pipeline(), the lazy singleton accessor: load and
cache on first call, return the cached handle afterwards. -/
def get_pipeline (s : ServerState) : ℕ × ServerState :=
  match s.cachedPipeline with
  | some h => (h, s)
  | none =>
    let hs := load_model s
    (hs.1, { cachedPipeline := some hs.1, loadCount := hs.2.loadCount })

/-! Helper lemmas about the rounding function. -/

theorem rhe_ge_floor (q : ℚ) : ⌊q⌋ ≤ rhe q := by
  unfold rhe
  split_ifs <;> omega

theorem rhe_le_floor_add_one (q : ℚ) : rhe q ≤ ⌊q⌋ + 1 := by
  unfold rhe
  split_ifs <;> omega

theorem rhe_mono {x y : ℚ} (h : x ≤ y) : rhe x ≤ rhe y := by
  rcases lt_or_le ⌊x⌋ ⌊y⌋ with hf | hf
  · calc rhe x ≤ ⌊x⌋ + 1 := rhe_le_floor_add_one x
    _ ≤ ⌊y⌋ := by omega
    _ ≤ rhe y := rhe_ge_floor y
  · have hf' : ⌊x⌋ = ⌊y⌋ := le_antisymm (Int.floor_le_floor h) hf
    unfold rhe
    rw [hf']
    have hfr : ((⌊y⌋ : ℚ)) ≤ x := by
      rw [← hf']
      exact Int.floor_le x
    split_ifs <;> first | omega | linarith

theorem abs_rhe_sub_le (q : ℚ) : |(rhe q : ℚ) - q| ≤ 1/2 := by
  have h0 : (⌊q⌋ : ℚ) ≤ q := Int.floor_le q
  have h1 : q < ⌊q⌋ + 1 := Int.lt_floor_add_one q
  unfold rhe
  split_ifs <;> (rw [abs_le]; push_cast; constructor <;> linarith)

theorem round3_mono {x y : ℚ} (h : x ≤ y) : round3 x ≤ round3 y := by
  unfold round3
  have h1 : rhe (1000 * x) ≤ rhe (1000 * y) := rhe_mono (by linarith)
  have h2 : ((rhe (1000 * x) : ℚ)) ≤ (rhe (1000 * y) : ℚ) := by exact_mod_cast h1
  linarith

theorem abs_round3_sub_le (q : ℚ) : |round3 q - q| ≤ 1/2000 := by
  unfold round3
  have h := abs_rhe_sub_le (1000 * q)
  rw [abs_le] at h ⊢
  obtain ⟨hl, hr⟩ := h
  constructor <;> linarith

theorem round3_zero : round3 0 = 0 := by norm_num [round3, rhe]

/-! Helper lemmas about pysplit: every word produced is non-empty, hence a
non-empty word list has positive total character count. -/

theorem splitWsAux_ne_nil : ∀ (l acc : List Char), ∀ w ∈ splitWsAux l acc, w ≠ [] := by
  intro l
  induction l with
  | nil =>
    intro acc w hw
    unfold splitWsAux at hw
    split at hw
    · simp at hw
    · rename_i hacc
      rw [List.mem_singleton] at hw
      subst hw
      simp only [List.isEmpty_iff] at hacc
      simpa using hacc
  | cons c cs ih =>
    intro acc w hw
    unfold splitWsAux at hw
    split at hw
    · split at hw
      · exact ih [] w hw
      · rename_i hacc
        rcases List.mem_cons.mp hw with rfl | hw'
        · simp only [List.isEmpty_iff] at hacc
          simpa using hacc
        · exact ih [] w hw'
    · exact ih (c :: acc) w hw

theorem pysplit_length_pos (s : String) : ∀ w ∈ pysplit s, 0 < w.length := by
  intro w hw
  unfold pysplit at hw
  rcases List.mem_map.mp hw with ⟨cs, hcs, rfl⟩
  have hne := splitWsAux_ne_nil s.data [] cs hcs
  show 0 < cs.length
  exact List.length_pos.mpr hne

theorem totalChars_pos (s : String) (h : pysplit s ≠ []) : 0 < totalChars (pysplit s) := by
  obtain ⟨w, ws, hws⟩ := List.exists_cons_of_ne_nil h
  have hw : 0 < w.length := pysplit_length_pos s w (by rw [hws]; exact List.mem_cons_self w ws)
  unfold totalChars
  rw [hws]
  simp only [List.map_cons, List.sum_cons]
  omega

/-! Helper lemmas about the estimator loop. -/

theorem estGo_map_word (tc : ℕ) (dur : ℚ) :
    ∀ (ws : List String) (t : ℚ), (estGo tc dur ws t).map WordTimestamp.word = ws := by
  intro ws
  induction ws with
  | nil => intro t; simp [estGo]
  | cons w ws ih => intro t; simp [estGo, ih]

theorem estGo_ne_nil (tc : ℕ) (dur : ℚ) (ws : List String) (t : ℚ) (h : ws ≠ []) :
    estGo tc dur ws t ≠ [] := by
  cases ws with
  | nil => exact absurd rfl h
  | cons w ws => simp [estGo]

theorem estGo_head?_start (tc : ℕ) (dur : ℚ) (ws : List String) (t : ℚ) (e : WordTimestamp)
    (h : (estGo tc dur ws t).head? = some e) : e.start_time = round3 t := by
  cases ws with
  | nil => simp [estGo] at h
  | cons w ws =>
    simp only [estGo, List.head?_cons, Option.some.injEq] at h
    rw [← h]

theorem estGo_getLastD_end (tc : ℕ) (dur : ℚ) :
    ∀ (ws : List String) (t : ℚ) (d : WordTimestamp), ws ≠ [] →
      ((estGo tc dur ws t).getLastD d).end_time =
        round3 (t + ((totalChars ws : ℚ) / (tc : ℚ)) * dur) := by
  intro ws
  induction ws with
  | nil => intro t d h; exact absurd rfl h
  | cons w ws ih =>
    intro t d _
    by_cases hw : ws = []
    · subst hw
      simp only [estGo, List.getLastD_cons, List.getLastD]
      simp [totalChars]
    · simp only [estGo, List.getLastD_cons]
      rw [ih _ _ hw]
      congr 1
      have hsum : totalChars (w :: ws) = w.length + totalChars ws := by
        simp [totalChars]
      rw [hsum]
      push_cast
      ring

theorem estGo_duration_nonneg (tc : ℕ) (dur : ℚ) (hd : 0 ≤ dur) :
    ∀ (ws : List String) (t : ℚ), ∀ e ∈ estGo tc dur ws t, e.start_time ≤ e.end_time := by
  intro ws
  induction ws with
  | nil => intro t e he; simp [estGo] at he
  | cons w ws ih =>
    intro t e he
    simp only [estGo, List.mem_cons] at he
    rcases he with rfl | he
    · show round3 t ≤ round3 _
      apply round3_mono
      have hwd : 0 ≤ ((w.length : ℚ) / (tc : ℚ)) * dur :=
        mul_nonneg (div_nonneg (Nat.cast_nonneg _) (Nat.cast_nonneg _)) hd
      linarith
    · exact ih _ e he

theorem estGo_chain (tc : ℕ) (dur : ℚ) (hd : 0 ≤ dur) :
    ∀ (ws : List String) (t : ℚ),
      List.Chain' (fun a b => a.start_time ≤ b.start_time) (estGo tc dur ws t) := by
  intro ws
  induction ws with
  | nil => intro t; simp [estGo]
  | cons w ws ih =>
    intro t
    simp only [estGo]
    refine List.chain'_cons'.mpr ⟨?_, ih _⟩
    intro b hb
    have hstart := estGo_head?_start tc dur ws _ b hb
    rw [hstart]
    show round3 t ≤ _
    apply round3_mono
    have hwd : 0 ≤ ((w.length : ℚ) / (tc : ℚ)) * dur :=
      mul_nonneg (div_nonneg (Nat.cast_nonneg _) (Nat.cast_nonneg _)) hd
    linarith

theorem estGoE_eq (tc : ℕ) (dur : ℚ) (htc : tc ≠ 0) :
    ∀ (ws : List String) (t : ℚ), estGoE tc dur ws t = .ok (estGo tc dur ws t) := by
  intro ws
  induction ws with
  | nil => intro t; rfl
  | cons w ws ih =>
    intro t
    have hq : ((tc : ℚ)) ≠ 0 := Nat.cast_ne_zero.mpr htc
    simp only [estGoE, estGo, pyDiv, if_neg hq, ih]
    rfl

/-! Claim theorems. -/

/-- C3: for every text whose whitespace-split word sequence is non-empty
with nonzero total character count and every total_duration at least 0,
the estimator returns one entry per word in input order, the first entry's
start_time is 0, and the last entry's end_time equals total_duration up to
the error of rounding to 3 decimals (at most 1/2000). -/
theorem c3_first_last (text : String) (dur : ℚ) (hd : 0 ≤ dur)
    (hw : pysplit text ≠ []) (hc : totalChars (pysplit text) ≠ 0) :
    ((_estimate_word_timestamps text dur).map WordTimestamp.word = pysplit text) ∧
    ((_estimate_word_timestamps text dur).head?.map WordTimestamp.start_time = some 0) ∧
    (∃ e, (_estimate_word_timestamps text dur).getLast? = some e ∧
      |e.end_time - dur| ≤ 1/2000) := by
  unfold _estimate_word_timestamps
  rw [if_neg hw, if_neg hc]
  refine ⟨estGo_map_word _ _ _ _, ?_, ?_⟩
  · obtain ⟨w, ws, hws⟩ := List.exists_cons_of_ne_nil hw
    rw [hws]
    simp [estGo, round3_zero]
  · have hne := estGo_ne_nil (totalChars (pysplit text)) dur (pysplit text) 0 hw
    cases hr : (estGo (totalChars (pysplit text)) dur (pysplit text) 0).getLast? with
    | none => exact absurd (List.getLast?_eq_none_iff.mp hr) hne
    | some e =>
      refine ⟨e, rfl, ?_⟩
      have hD := estGo_getLastD_end (totalChars (pysplit text)) dur (pysplit text) 0 e hw
      rw [List.getLastD_eq_getLast?, hr] at hD
      simp only [Option.getD_some] at hD
      rw [hD]
      have htc : ((totalChars (pysplit text) : ℚ)) ≠ 0 := Nat.cast_ne_zero.mpr hc
      rw [div_self htc, one_mul, zero_add]
      exact abs_round3_sub_le dur

/-- C3 witness: the theorem instantiated at the concrete request text
"hello world" with total_duration 2. -/
theorem c3_first_last_witness :
    ((_estimate_word_timestamps "hello world" 2).map WordTimestamp.word = pysplit "hello world") ∧
    ((_estimate_word_timestamps "hello world" 2).head?.map WordTimestamp.start_time = some 0) ∧
    (∃ e, (_estimate_word_timestamps "hello world" 2).getLast? = some e ∧
      |e.end_time - 2| ≤ 1/2000) :=
  c3_first_last "hello world" 2 (by norm_num) (by decide) (by decide)

/-- C4: for every total_duration, when the text splits into no words, or
the total character count across the words is zero, the estimator returns
the empty sequence. -/
theorem c4_empty_input (text : String) (dur : ℚ)
    (h : pysplit text = [] ∨ totalChars (pysplit text) = 0) :
    _estimate_word_timestamps text dur = [] := by
  unfold _estimate_word_timestamps
  rcases h with h | h
  · rw [if_pos h]
  · by_cases hw : pysplit text = []
    · rw [if_pos hw]
    · rw [if_neg hw, if_pos h]

/-- C4 witness: all-whitespace text yields the empty sequence. -/
theorem c4_empty_input_witness : _estimate_word_timestamps "   " 5 = [] :=
  c4_empty_input "   " 5 (Or.inl (by decide))

/-- C5: for every text and every total_duration at least 0, every entry's
duration (end_time minus start_time) is non-negative and start_time is
monotonically non-decreasing along the returned sequence. -/
theorem c5_monotone (text : String) (dur : ℚ) (hd : 0 ≤ dur) :
    (∀ e ∈ _estimate_word_timestamps text dur, 0 ≤ e.end_time - e.start_time) ∧
    List.Chain' (fun a b => a.start_time ≤ b.start_time)
      (_estimate_word_timestamps text dur) := by
  unfold _estimate_word_timestamps
  dsimp only
  split_ifs with h1 h2
  · simp
  · simp
  · constructor
    · intro e he
      have := estGo_duration_nonneg (totalChars (pysplit text)) dur hd (pysplit text) 0 e he
      linarith
    · exact estGo_chain (totalChars (pysplit text)) dur hd (pysplit text) 0

/-- C5 witness: the theorem instantiated at text "a bb" with
total_duration 1. -/
theorem c5_monotone_witness :
    (∀ e ∈ _estimate_word_timestamps "a bb" 1, 0 ≤ e.end_time - e.start_time) ∧
    List.Chain' (fun a b => a.start_time ≤ b.start_time)
      (_estimate_word_timestamps "a bb" 1) :=
  c5_monotone "a bb" 1 (by norm_num)

/-- C6: the worked example of the spec: text "hello world" with
total_duration 2 yields exactly the two entries (hello, 0, 1) and
(world, 1, 2). -/
theorem c6_hello_world : _estimate_word_timestamps "hello world" 2 =
    [⟨"hello", 0, 1⟩, ⟨"world", 1, 2⟩] := by
  have h : pysplit "hello world" = ["hello", "world"] := by decide
  have h5 : "hello".length = 5 := by decide
  have h5' : "world".length = 5 := by decide
  simp [_estimate_word_timestamps, h, totalChars, estGo, h5, h5']
  norm_num [round3, rhe]

/-- C10: the estimator is total: with the internal division modeled as the
fallible Python operation, it never raises (in particular never divides by
zero, the guard on total_chars having already returned) and produces
exactly the list of the pure rendering, for every text and every
total_duration including negative ones. -/
theorem c10_estimator_total (text : String) (dur : ℚ) :
    estimateE text dur = .ok (_estimate_word_timestamps text dur) := by
  unfold estimateE _estimate_word_timestamps
  dsimp only
  split_ifs with h1 h2
  · rfl
  · rfl
  · exact estGoE_eq (totalChars (pysplit text)) dur h2 (pysplit text) 0

/-- C1 counterexample: with a generator yielding two segments carrying
different buffers and rates, the collected audio is not the concatenation
of the buffers with the final segment's rate: the code keeps only element
0 of the collected list. -/
theorem c1_counterexample :
    ¬ (collectSegments [Segment.tup [1] 8000, Segment.tup [2] 16000] =
       .ok ([1, 2], 16000)) := by
  intro h
  simp [collectSegments, segSamples, segRate] at h

/-- C1 amended: for every non-empty collected segment list, the handler
uses the first segment's sample buffer as the whole output buffer and the
first segment's sample rate (24000 when the first segment carries no
rate); the remaining segments are discarded. -/
theorem c1_first_segment (segs : List Segment) (h : segs ≠ []) :
    collectSegments segs = .ok (segSamples (segs.head h), segRate (segs.head h)) := by
  cases segs with
  | nil => exact absurd rfl h
  | cons s ss => rfl

/-- C1 witness: the amended statement evaluated on a concrete two-segment
list. -/
theorem c1_first_segment_witness :
    collectSegments [Segment.tup [3] 100, Segment.tup [4] 200] = .ok ([3], 100) := by
  have h := c1_first_segment [Segment.tup [3] 100, Segment.tup [4] 200] (by simp)
  simpa [segSamples, segRate] using h

/-- C2 (code bug): on zero generated segments the handler raises
HTTPException(500, "No audio generated") inside its own try block, the
catch-all re-wraps it via str(e), and the surfaced detail is therefore
"500: No audio generated", which differs from the intended fixed message
carried by the inner exception. -/
theorem c2_zero_segments_behavior :
    captioned_speech "hi" (.ok (.gen [])) sf_write =
      .error (500, strExc (.httpException 500 "No audio generated")) ∧
    strExc (.httpException 500 "No audio generated") ≠ "No audio generated" :=
  ⟨rfl, by decide⟩

/-- C7: every exception of the synthesis pipeline is caught at the handler
boundary and surfaced as HTTP 500 carrying the exception's string
representation, and no success response is produced. -/
theorem c7_catch_all (input : String) (gen : Except PyExc GenResult)
    (sfw : List ℤ → ℕ → Except PyExc WavFile) (e : PyExc)
    (h : synthesis_pipeline input gen sfw = .error e) :
    captioned_speech input gen sfw = .error (500, strExc e) ∧
    ∀ r : Response, captioned_speech input gen sfw ≠ .ok r := by
  unfold captioned_speech
  rw [h]
  exact ⟨rfl, fun r hr => Except.noConfusion hr⟩

/-- C7 witness: a model-load failure (generation outcome raising before
yielding a result) surfaces as HTTP 500 carrying its message. -/
theorem c7_catch_all_witness :
    captioned_speech "x" (.error (.err "model load failed")) sf_write =
      .error (500, strExc (.err "model load failed")) ∧
    ∀ r : Response, captioned_speech "x" (.error (.err "model load failed")) sf_write ≠ .ok r :=
  c7_catch_all "x" (.error (.err "model load failed")) sf_write (.err "model load failed") rfl

/-- C8: calling get_pipeline a second time after a first call returns the
identical cached handle and does not run the external load operation
again (the load counter is unchanged by the second call). -/
theorem c8_pipeline_cached (s0 : ServerState) :
    (get_pipeline (get_pipeline s0).2).1 = (get_pipeline s0).1 ∧
    (get_pipeline (get_pipeline s0).2).2.loadCount = (get_pipeline s0).2.loadCount := by
  cases h : s0.cachedPipeline with
  | some hh => simp [get_pipeline, h]
  | none => simp [get_pipeline, h, load_model]

/-- C9: for every successful response, the decoded base64 audio is a
well-formed WAV container and its sample count divided by its sample rate
is exactly the total_duration handed to the timestamp estimator for the
same request. -/
theorem c9_wav_roundtrip (input : String) (gen : Except PyExc GenResult) (resp : Response)
    (h : captioned_speech input gen sf_write = .ok resp) :
    resp.timestamps = _estimate_word_timestamps input
      ((wavSampleCount (base64Decode resp.audio) : ℚ) /
       (wavRate (base64Decode resp.audio) : ℚ)) := by
  cases gen with
  | error e => exact Except.noConfusion h
  | ok gr =>
    cases gr with
    | gen segs =>
      cases segs with
      | nil => exact Except.noConfusion h
      | cons s ss =>
        injection h with hr
        rw [← hr]
        rfl
    | tupRes a rate =>
      injection h with hr
      rw [← hr]
      rfl
    | arr a =>
      injection h with hr
      rw [← hr]
      rfl

/-- C9 witness: a concrete successful request with a one-sample buffer at
rate 1 and input "a". -/
theorem c9_wav_roundtrip_witness :
    (Response.mk (base64Encode ⟨[5], 1⟩) [⟨"a", 0, 1⟩]).timestamps =
    _estimate_word_timestamps "a"
      ((wavSampleCount (base64Decode (Response.mk (base64Encode ⟨[5], 1⟩)
          [⟨"a", 0, 1⟩]).audio) : ℚ) /
       (wavRate (base64Decode (Response.mk (base64Encode ⟨[5], 1⟩)
          [⟨"a", 0, 1⟩]).audio) : ℚ)) := by
  have hsplit : pysplit "a" = ["a"] := by decide
  have ha : "a".length = 1 := by decide
  have hcap : captioned_speech "a" (.ok (.tupRes [5] 1)) sf_write =
      .ok (Response.mk (base64Encode ⟨[5], 1⟩) [⟨"a", 0, 1⟩]) := by
    simp [captioned_speech, synthesis_pipeline, collectAudio, sf_write,
      _estimate_word_timestamps, hsplit, totalChars, estGo, ha]
    norm_num [round3, rhe]
  exact c9_wav_roundtrip "a" (.ok (.tupRes [5] 1)) _ hcap
